import Mathlib

/-!
Verification of the multi-clip crossfade assembly pipeline and the
asynchronous job orchestration of the ffmpeg-api-service repository.

The definitions below are a shallow embedding of the JavaScript source:

* `videoOffsets`, `buildXfadeCommand`, `calculateTotalDuration`,
  `xfadeTotalDuration` embed `src/lib/ffmpeg.js` (functions
  `buildXfadeCommand` and `calculateTotalDuration`).  Durations are
  modelled as exact rationals; `Math.round` is the half-up rounding
  `jsRound`.  The emitted ffmpeg command string is represented by the
  structure `XfadeCommand` that records exactly the numeric data the
  string interpolates (scale canvas, xfade chain with per-step offsets,
  and the optional audio chain with adelay / atrim / afade / apad
  parameters).
* `downloadVideo`, `assembleVideos` embed `src/lib/storage.js`
  (`downloadVideo`) and the download / transcode / cleanup control flow
  of `assembleVideos` in `src/lib/ffmpeg.js`; network behaviour is a
  parameter (`FetchScenario`).
* `processAsyncFinal` embeds the control flow of `processAsync` in
  `src/server.js` (lines 216-270): which job record is stored in the
  `jobs` map when the function returns, as a function of the pipeline
  outcome and of whether the webhook callback delivery succeeds.
* `resolveTransitionDuration` embeds the default resolution
  `transition?.duration || 1` of the `/api/assemble` handler.
* `sweepJobs`, `getJobEndpoint` embed the periodic job sweep and the
  `GET /api/job/:jobId` handler of `src/server.js`.
* `specOffsets` is NOT taken from the source: it is the reference
  offset algorithm written from the words of spec section 4.2, used to
  compare the code against the spec (refinement claim).
-/

namespace FfmpegApi

/-- JS `Math.round`: round half-up (toward positive infinity). -/
def jsRound (q : ℚ) : ℤ := ⌊q + 1/2⌋

/-- JS `Math.round(x * 100) / 100`: round to two decimal places, half-up. -/
def round2 (q : ℚ) : ℚ := (jsRound (q * 100) : ℚ) / 100

/-- One downloaded clip as used by `buildXfadeCommand`: its probed
duration in seconds and whether it has an audio stream
(`localFiles` entries in `assembleVideos`, `src/lib/ffmpeg.js`). -/
structure MediaFile where
  duration : ℚ
  hasAudio : Bool
deriving DecidableEq, Repr

instance : Inhabited MediaFile := ⟨⟨0, false⟩⟩

/-- The offset-accumulation loop of `buildXfadeCommand`
(`src/lib/ffmpeg.js` lines 172-179): `runningDuration` is the plain
cumulative sum of the clip durations consumed so far and the emitted
offset for step `i` (0-based) is
`Math.max(0, runningDuration - transitionDuration * (i + 1))`. -/
def offsetsAux (t : ℚ) : List ℚ → ℚ → ℕ → List ℚ
  | [], _, _ => []
  | d :: rest, running, i =>
      max 0 ((running + d) - t * ((i : ℚ) + 1)) :: offsetsAux t rest (running + d) (i + 1)

/-- `videoOffsets` of `buildXfadeCommand`: offset 0 for the first clip,
then one offset per remaining clip produced by the loop over
`files[0] .. files[length-2]`. -/
def videoOffsets (files : List MediaFile) (t : ℚ) : List ℚ :=
  0 :: offsetsAux t ((files.map (fun f => f.duration)).dropLast) 0 0

/-- Crossfade start offsets per the reference algorithm of spec section
4.2.  Modelled from the spec: maintain the already-composed output
duration `D`, initialised to the first clip duration; each subsequent
clip gets offset `max 0 (D - t)` and `D` becomes that offset plus the
clip duration. -/
def specOffsetsAux (t : ℚ) : List ℚ → ℚ → List ℚ
  | [], _ => []
  | d :: rest, D => max 0 (D - t) :: specOffsetsAux t rest (max 0 (D - t) + d)

/-- Full spec-side offset list (first clip starts at 0, per the
Timeline invariant `offset[0] == 0` of spec section 3). -/
def specOffsets (durations : List ℚ) (t : ℚ) : List ℚ :=
  match durations with
  | [] => []
  | d0 :: rest => 0 :: specOffsetsAux t rest d0

/-- One `xfade=transition=fade:duration=..:offset=..` node of the
emitted filter graph. -/
structure XfadeStep where
  duration : ℚ
  offset : ℚ
deriving DecidableEq, Repr

/-- The video half of the emitted command: the per-clip scale/pad nodes
(determined by the clip count and the output canvas) and the crossfade
chain.  This is built before the `includeAudio` branch in the source and
is shared by both branches. -/
structure VideoGraph where
  numClips : ℕ
  width : ℕ
  height : ℕ
  xfade : List XfadeStep
deriving DecidableEq, Repr

/-- The audio filter chain emitted for one clip: optional
`adelay` (only when the rounded delay in ms is positive), the `atrim`
end, the optional local fade-out start, whether a fade-in is applied,
and the `apad=whole_dur=` target. -/
structure AudioEntry where
  delayMs : Option ℤ
  trimEnd : ℚ
  fadeOutStart : Option ℚ
  fadeIn : Bool
  padWholeDur : ℚ
deriving DecidableEq, Repr

/-- The numeric content of the command string returned by
`buildXfadeCommand`. -/
structure XfadeCommand where
  video : VideoGraph
  totalDuration : ℚ
  audio : Option (List AudioEntry)
deriving DecidableEq, Repr

/-- The `totalDuration` computed inside `buildXfadeCommand`
(`src/lib/ffmpeg.js` lines 181-184): the last clip start offset plus the
last clip duration. -/
def xfadeTotalDuration (files : List MediaFile) (t : ℚ) : ℚ :=
  (videoOffsets files t).getD (files.length - 1) 0
    + ((files.map (fun f => f.duration)).getD (files.length - 1) 0)

/-- Embedding of `buildXfadeCommand` (`src/lib/ffmpeg.js` lines
157-255).  Throws (models `throw new Error`) when fewer than 2 files are
given; otherwise emits the scale nodes, the xfade chain using
`videoOffsets`, and, when `includeAudio` is set, one audio chain per
clip followed by `amix`. -/
def buildXfadeCommand (files : List MediaFile) (t : ℚ) (w h : ℕ)
    (includeAudio : Bool) : Except String XfadeCommand :=
  if files.length < 2 then
    .error "At least 2 videos required for xfade"
  else
    let offs := videoOffsets files t
    let total := xfadeTotalDuration files t
    let steps := (List.range (files.length - 1)).map
      (fun i => XfadeStep.mk t (offs.getD (i + 1) 0))
    let audio : Option (List AudioEntry) :=
      if includeAudio then
        some ((List.range files.length).map (fun i =>
          let startOffset := offs.getD i 0
          let d := ((files.map (fun f => f.duration)).getD i 0)
          let delayMs := jsRound (startOffset * 1000)
          { delayMs := if 0 < delayMs then some delayMs else none
            trimEnd := d
            fadeOutStart := if i < files.length - 1 then some (d - t) else none
            fadeIn := decide (0 < i)
            padWholeDur := total }))
      else none
    .ok { video := { numClips := files.length, width := w, height := h, xfade := steps }
          totalDuration := total
          audio := audio }

/-- Embedding of `calculateTotalDuration` (`src/lib/ffmpeg.js` lines
263-267): the raw duration sum minus `(n - 1) * transitionDuration`,
rounded to two decimals.  Note: the source performs no clamping. -/
def calculateTotalDuration (files : List MediaFile) (t : ℚ) : ℚ :=
  round2 ((files.map (fun f => f.duration)).sum - ((files.length : ℚ) - 1) * t)

/-- The `allVideosHaveAudio` accumulation of `assembleVideos`
(`src/lib/ffmpeg.js` lines 29-62): starts `true`, cleared by any clip
without an audio stream. -/
def allVideosHaveAudio (files : List MediaFile) : Bool :=
  files.foldl (fun acc f => acc && f.hasAudio) true

/-- Network behaviour of one clip download: the `content-length` header
(absent models a missing header) and the sizes of the streamed chunks;
`probed` is the clip metadata obtained after a successful download. -/
structure FetchScenario where
  contentLength : Option ℕ
  chunks : List ℕ
  probed : MediaFile
deriving DecidableEq, Repr

/-- The streamed-byte counter of `downloadVideo`: true when some prefix
of the chunk stream pushes the running byte count above the cap. -/
def exceedsCap (maxFileSize : ℕ) : List ℕ → ℕ → Bool
  | [], _ => false
  | c :: rest, downloaded =>
      if maxFileSize < downloaded + c then true
      else exceedsCap maxFileSize rest (downloaded + c)

/-- Embedding of `downloadVideo` (`src/lib/storage.js` lines 29-99):
reject when the `content-length` header exceeds the cap, otherwise
stream and reject once the counted bytes exceed the cap. -/
def downloadVideo (maxFileSize : ℕ) (s : FetchScenario) : Except String Unit :=
  match s.contentLength with
  | some c =>
      if maxFileSize < c then
        .error "File too large"
      else if exceedsCap maxFileSize s.chunks 0 then
        .error "Download exceeded limit"
      else .ok ()
  | none =>
      if exceedsCap maxFileSize s.chunks 0 then
        .error "Download exceeded limit"
      else .ok ()

/-- The sequential download loop of `assembleVideos`: the first failing
download aborts the whole loop with its error. -/
def downloadAll (maxFileSize : ℕ) : List FetchScenario → Except String (List MediaFile)
  | [] => .ok []
  | s :: rest =>
      match downloadVideo maxFileSize s with
      | .error e => .error e
      | .ok _ =>
          match downloadAll maxFileSize rest with
          | .error e => .error e
          | .ok files => .ok (s.probed :: files)

/-- Result object returned by `assembleVideos` on success. -/
structure AssembleResult where
  filename : String
  duration : ℚ
deriving DecidableEq, Repr

/-- Observable trace of one `assembleVideos` run: its result, whether
the external transcoder was ever invoked, and whether the working
directory was removed (the source removes it on both the success path
and in the catch block). -/
structure AssembleTrace where
  result : Except String AssembleResult
  ffmpegInvoked : Bool
  workDirRemoved : Bool
deriving Repr

/-- Embedding of the control flow of `assembleVideos`
(`src/lib/ffmpeg.js` lines 16-105): download every clip in order, build
the xfade command, invoke ffmpeg (outcome `transcodeOk`), compute the
reported duration, and clean up the working directory on every path. -/
def assembleVideos (maxFileSize : ℕ) (clips : List FetchScenario) (t : ℚ)
    (w h : ℕ) (transcodeOk : Bool) : AssembleTrace :=
  match downloadAll maxFileSize clips with
  | .error e => { result := .error e, ffmpegInvoked := false, workDirRemoved := true }
  | .ok files =>
      match buildXfadeCommand files t w h (allVideosHaveAudio files) with
      | .error e => { result := .error e, ffmpegInvoked := false, workDirRemoved := true }
      | .ok _ =>
          if transcodeOk then
            { result := .ok { filename := "assembled.mp4"
                              duration := calculateTotalDuration files t }
              ffmpegInvoked := true, workDirRemoved := true }
          else
            { result := .error "ffmpeg failed", ffmpegInvoked := true, workDirRemoved := true }

/-- Job lifecycle states stored in the `jobs` map of `src/server.js`. -/
inductive JobStatus
  | processing
  | completed
  | failed
deriving DecidableEq, Repr

/-- The record stored in the `jobs` map for one job id. -/
structure JobRecord where
  status : JobStatus
  progress : Option ℕ
  result : Option AssembleResult
  error : Option String
deriving DecidableEq, Repr

/-- The record `processAsync` stores on the success transition
(`src/server.js` lines 228-235). -/
def completedRecord (r : AssembleResult) : JobRecord :=
  { status := .completed, progress := some 100, result := some r, error := none }

/-- The record `processAsync` stores on the failure transition
(`src/server.js` lines 251-255). -/
def failedRecord (e : String) : JobRecord :=
  { status := .failed, progress := none, result := none, error := some e }

/-- Embedding of the control flow of `processAsync` (`src/server.js`
lines 216-270): the job record left in the `jobs` map when the function
returns.  On pipeline success the completed record is stored and then
`axios.post(callbackUrl, ...)` is awaited WITHOUT a surrounding
try/catch, so a callback delivery failure propagates to the outer catch
block, which overwrites the record with a failed one (whose error is
the callback error message).  On pipeline failure the failed record is
stored and the callback attempt is guarded by its own try/catch, so its
outcome never changes the stored record. -/
def processAsyncFinal (pipeline : Except String AssembleResult)
    (callbackUrl : Option String) (callbackDelivers : Bool) : JobRecord :=
  match pipeline with
  | .ok r =>
      match callbackUrl with
      | none => completedRecord r
      | some _ =>
          if callbackDelivers then completedRecord r
          else failedRecord "callback delivery error"
  | .error e => failedRecord e

/-- Embedding of the transition default resolution of the
`/api/assemble` handler (`src/server.js` lines 152-156):
`transition?.duration || 1`.  The outer `Option` models an absent
`transition` object, the inner one an absent `duration` field; a
supplied 0 is falsy in JS and is replaced by the default 1. -/
def resolveTransitionDuration (transition : Option (Option ℚ)) : ℚ :=
  match transition with
  | none => 1
  | some none => 1
  | some (some d) => if d = 0 then 1 else d

/-- One entry of the in-memory job registry for the sweep model:
status plus the three timestamps (in ms) the sweep consults. -/
structure SweepJob where
  status : JobStatus
  createdAt : ℤ
  completedAt : Option ℤ
  failedAt : Option ℤ
deriving DecidableEq, Repr

/-- The reference timestamp used by the job sweep (`src/server.js` line
1808): `job.completedAt || job.failedAt || job.createdAt`. -/
def jobRefTime (j : SweepJob) : ℤ :=
  match j.completedAt with
  | some c => c
  | none =>
      match j.failedAt with
      | some f => f
      | none => j.createdAt

/-- The in-memory job registry as a partial map from job id to record. -/
def Registry : Type := String → Option SweepJob

/-- Embedding of the periodic sweep (`src/server.js` lines 1803-1813):
every entry whose reference timestamp is strictly older than one hour
(3600000 ms) before `now` is deleted. -/
def sweepJobs (reg : Registry) (now : ℤ) : Registry :=
  fun id =>
    match reg id with
    | some j => if jobRefTime j < now - 3600000 then none else some j
    | none => none

/-- Response of `GET /api/job/:jobId` (`src/server.js` lines
1160-1175): 404 when the id is absent from the registry. -/
inductive JobResponse
  | notFound404
  | found (j : SweepJob)
deriving DecidableEq, Repr

/-- Embedding of the job status endpoint handler. -/
def getJobEndpoint (reg : Registry) (id : String) : JobResponse :=
  match reg id with
  | none => .notFound404
  | some j => .found j

/-- A download whose size exceeds the configured byte cap, in either of
the two ways the source detects it: via the `content-length` header or
via the streamed-byte counter. -/
def sizeExceeded (maxFileSize : ℕ) (s : FetchScenario) : Prop :=
  (∃ c, s.contentLength = some c ∧ maxFileSize < c)
    ∨ exceedsCap maxFileSize s.chunks 0 = true

/-! ## Helper lemmas -/

/-- Closed form of the offset loop when the transition duration is at
most every remaining clip duration: the clamp never fires and each
emitted offset is the running sum minus `t * (index + 1)`. -/
theorem offsetsAux_closed (t : ℚ) :
    ∀ (cs : List ℚ), (∀ d ∈ cs, t ≤ d) → ∀ (s : ℚ) (i : ℕ), t * (i : ℚ) ≤ s →
      offsetsAux t cs s i
        = (List.range cs.length).map
            (fun j => s + (cs.take (j + 1)).sum - t * ((i : ℚ) + (j : ℚ) + 1)) := by
  intro cs
  induction cs with
  | nil => intro _ s i _; simp [offsetsAux]
  | cons d rest ih =>
      intro hall s i hsi
      have htd : t ≤ d := hall d (List.mem_cons_self _ _)
      have hrest : ∀ x ∈ rest, t ≤ x := fun x hx => hall x (List.mem_cons_of_mem _ hx)
      have hbound : t * ((i : ℚ) + 1) ≤ s + d := by
        have hexp : t * ((i : ℚ) + 1) = t * (i : ℚ) + t := by ring
        linarith
      have hmax : max 0 (s + d - t * ((i : ℚ) + 1)) = s + d - t * ((i : ℚ) + 1) :=
        max_eq_right (by linarith)
      have hnext : t * ((i + 1 : ℕ) : ℚ) ≤ s + d := by push_cast; linarith [hbound]
      simp only [offsetsAux, hmax, ih hrest (s + d) (i + 1) hnext]
      rw [List.length_cons, List.range_succ_eq_map, List.map_cons, List.map_map]
      congr 1
      · simp [List.take_succ_cons]
      · apply List.map_congr_left
        intro j hj
        simp only [Function.comp, List.take_succ_cons, List.sum_cons]
        push_cast
        ring

/-- Closed form of the spec-side accumulation under the same
no-clamping hypothesis. -/
theorem specOffsetsAux_closed (t : ℚ) :
    ∀ (cs : List ℚ), (∀ d ∈ cs, t ≤ d) → ∀ (D : ℚ), t ≤ D →
      specOffsetsAux t cs D
        = (List.range cs.length).map (fun j => D + (cs.take j).sum - t * ((j : ℚ) + 1)) := by
  intro cs
  induction cs with
  | nil => intro _ D _; simp [specOffsetsAux]
  | cons d rest ih =>
      intro hall D hD
      have htd : t ≤ d := hall d (List.mem_cons_self _ _)
      have hrest : ∀ x ∈ rest, t ≤ x := fun x hx => hall x (List.mem_cons_of_mem _ hx)
      have hmax : max 0 (D - t) = D - t := max_eq_right (by linarith)
      have hnext : t ≤ (D - t) + d := by linarith
      simp only [specOffsetsAux, hmax]
      rw [ih hrest (D - t + d) hnext]
      rw [List.length_cons, List.range_succ_eq_map, List.map_cons, List.map_map]
      congr 1
      · simp
      · apply List.map_congr_left
        intro j hj
        simp only [Function.comp, List.take_succ_cons, List.sum_cons]
        push_cast
        ring

/-- The two offset computations agree, at the level of raw duration
lists, whenever the transition duration is at most every clip
duration. -/
theorem offsets_lists_eq (t : ℚ) (ds : List ℚ) (hn : 2 ≤ ds.length)
    (hall : ∀ d ∈ ds, t ≤ d) :
    0 :: offsetsAux t ds.dropLast 0 0 = specOffsets ds t := by
  cases ds with
  | nil => simp at hn
  | cons d0 rest0 =>
      cases rest0 with
      | nil => simp at hn
      | cons d1 ms =>
          have hd0 : t ≤ d0 := hall d0 (List.mem_cons_self _ _)
          have hrest : ∀ d ∈ (d1 :: ms), t ≤ d :=
            fun d hd => hall d (List.mem_cons_of_mem _ hd)
          have hallL : ∀ d ∈ (d0 :: d1 :: ms).dropLast, t ≤ d :=
            fun d hd => hall d ((List.dropLast_sublist _).subset hd)
          rw [offsetsAux_closed t _ hallL 0 0 (by simp)]
          simp only [specOffsets]
          rw [specOffsetsAux_closed t _ hrest d0 hd0]
          congr 1
          have hlen : (d0 :: d1 :: ms).dropLast.length = (d1 :: ms).length := by
            simp [List.length_dropLast]
          rw [hlen]
          apply List.map_congr_left
          intro j hj
          have hj' : j < ms.length + 1 := by simpa using List.mem_range.mp hj
          have hdl : (d0 :: d1 :: ms).dropLast = d0 :: (d1 :: ms).dropLast := by
            simp [List.dropLast_cons₂]
          rw [hdl, List.take_succ_cons, List.sum_cons]
          have htake : (d1 :: ms).dropLast.take j = (d1 :: ms).take j := by
            rw [List.dropLast_eq_take, List.take_take]
            congr 1
            simpa using Nat.min_eq_left (Nat.le_of_lt_succ hj')
          rw [htake]
          push_cast
          ring

/-- The emitted offset list of `buildXfadeCommand` is non-decreasing
when the transition duration is at most every remaining clip
duration. -/
theorem offsetsAux_chain (t : ℚ) :
    ∀ (cs : List ℚ), (∀ d ∈ cs, t ≤ d) → ∀ (s : ℚ) (i : ℕ) (c : ℚ),
      t * (i : ℚ) ≤ s → c ≤ s - t * (i : ℚ) →
      List.Chain' (fun a b => a ≤ b) (c :: offsetsAux t cs s i) := by
  intro cs
  induction cs with
  | nil => intro _ s i c _ _; simp [offsetsAux]
  | cons d rest ih =>
      intro hall s i c hsi hc
      have htd : t ≤ d := hall d (List.mem_cons_self _ _)
      have hrest : ∀ x ∈ rest, t ≤ x := fun x hx => hall x (List.mem_cons_of_mem _ hx)
      have hexp : t * ((i : ℚ) + 1) = t * (i : ℚ) + t := by ring
      have hmax : max 0 (s + d - t * ((i : ℚ) + 1)) = s + d - t * ((i : ℚ) + 1) :=
        max_eq_right (by linarith)
      simp only [offsetsAux, hmax]
      rw [List.chain'_cons]
      constructor
      · linarith
      · have hnext : t * ((i + 1 : ℕ) : ℚ) ≤ s + d := by push_cast; linarith
        have hle : s + d - t * ((i : ℚ) + 1) ≤ (s + d) - t * ((i + 1 : ℕ) : ℚ) := by
          push_cast; linarith
        have hch := ih hrest (s + d) (i + 1) (s + d - t * ((i : ℚ) + 1)) hnext hle
        simpa [offsetsAux, hmax] using hch

/-- Sums of prefixes of a nonnegative list are nonnegative. -/
theorem sum_take_nonneg (l : List ℚ) (h : ∀ d ∈ l, 0 ≤ d) (k : ℕ) :
    0 ≤ (l.take k).sum := by
  induction l generalizing k with
  | nil => simp
  | cons d rest ih =>
      cases k with
      | zero => simp
      | succ k' =>
          rw [List.take_succ_cons, List.sum_cons]
          have hd : 0 ≤ d := h d (List.mem_cons_self _ _)
          have hih := ih (fun x hx => h x (List.mem_cons_of_mem _ hx)) k'
          linarith

/-- Prefix sums of a nonnegative list are monotone in the prefix
length. -/
theorem sum_take_mono (l : List ℚ) (h : ∀ d ∈ l, 0 ≤ d) :
    ∀ (m k : ℕ), m ≤ k → (l.take m).sum ≤ (l.take k).sum := by
  induction l with
  | nil => intro m k _; simp
  | cons d rest ih =>
      intro m k hmk
      cases m with
      | zero => simpa using sum_take_nonneg (d :: rest) h k
      | succ m' =>
          cases k with
          | zero => omega
          | succ k' =>
              rw [List.take_succ_cons, List.take_succ_cons, List.sum_cons, List.sum_cons]
              have hih := ih (fun x hx => h x (List.mem_cons_of_mem _ hx)) m' k'
                (Nat.succ_le_succ_iff.mp hmk)
              linarith

/-- Each emitted offset is bounded by the accumulator plus the matching
prefix sum of the remaining durations. -/
theorem offsetsAux_getD_le (t : ℚ) (ht : 0 ≤ t) :
    ∀ (cs : List ℚ), (∀ d ∈ cs, 0 ≤ d) → ∀ (s : ℚ) (i : ℕ), 0 ≤ s → ∀ (j : ℕ),
      (offsetsAux t cs s i).getD j 0 ≤ s + (cs.take (j + 1)).sum := by
  intro cs
  induction cs with
  | nil =>
      intro _ s i hs j
      simp [offsetsAux, hs]
  | cons d rest ih =>
      intro hall s i hs j
      have hd : 0 ≤ d := hall d (List.mem_cons_self _ _)
      have hrest : ∀ x ∈ rest, 0 ≤ x := fun x hx => hall x (List.mem_cons_of_mem _ hx)
      cases j with
      | zero =>
          simp only [offsetsAux, List.getD_cons_zero, List.take_succ_cons, List.sum_cons]
          have hti : 0 ≤ t * ((i : ℚ) + 1) := by positivity
          have h1 : s + d - t * ((i : ℚ) + 1) ≤ s + d := by linarith
          have h2 : (0 : ℚ) ≤ s + d := by linarith
          simp only [List.take_zero, List.sum_nil, add_zero]
          exact max_le h2 h1
      | succ j' =>
          simp only [offsetsAux, List.getD_cons_succ, List.take_succ_cons, List.sum_cons]
          have hih := ih hrest (s + d) (i + 1) (by linarith) j'
          linarith

/-- A list of elements all at least `t` sums to at least `length * t`. -/
theorem length_mul_le_sum (t : ℚ) :
    ∀ (l : List ℚ), (∀ d ∈ l, t ≤ d) → (l.length : ℚ) * t ≤ l.sum := by
  intro l
  induction l with
  | nil => intro _; simp
  | cons d rest ih =>
      intro hall
      have hd : t ≤ d := hall d (List.mem_cons_self _ _)
      have hih := ih (fun x hx => hall x (List.mem_cons_of_mem _ hx))
      rw [List.length_cons, List.sum_cons]
      push_cast
      linarith

/-- Two-decimal half-up rounding preserves nonnegativity. -/
theorem round2_nonneg (q : ℚ) (h : 0 ≤ q) : 0 ≤ round2 q := by
  unfold round2 jsRound
  have hfl : (0 : ℤ) ≤ ⌊q * 100 + 1/2⌋ := by
    apply Int.le_floor.mpr
    push_cast
    nlinarith
  exact div_nonneg (by exact_mod_cast hfl) (by norm_num)

/-- Two-decimal half-up rounding moves a value by at most 1/200. -/
theorem abs_round2_sub_le (q : ℚ) : |round2 q - q| ≤ 1/200 := by
  have h1 : ((⌊q * 100 + 1/2⌋ : ℤ) : ℚ) ≤ q * 100 + 1/2 := Int.floor_le _
  have h2 : q * 100 + 1/2 < (⌊q * 100 + 1/2⌋ : ℤ) + 1 := Int.lt_floor_add_one _
  have hrw : round2 q - q = (((⌊q * 100 + 1/2⌋ : ℤ) : ℚ) - q * 100) / 100 := by
    unfold round2 jsRound
    ring
  rw [hrw, abs_div]
  have h100 : |(100 : ℚ)| = 100 := by norm_num
  rw [h100]
  have hkey : |((⌊q * 100 + 1/2⌋ : ℤ) : ℚ) - q * 100| ≤ 1/2 :=
    abs_le.mpr ⟨by linarith, by linarith⟩
  calc |((⌊q * 100 + 1/2⌋ : ℤ) : ℚ) - q * 100| / 100 ≤ (1/2) / 100 := by
        apply div_le_div_of_nonneg_right hkey
        norm_num
    _ = 1/200 := by norm_num

/-- The boolean audio flag accumulated by `assembleVideos` is true
exactly when every clip has an audio stream. -/
theorem allVideosHaveAudio_iff (files : List MediaFile) :
    allVideosHaveAudio files = true ↔ ∀ f ∈ files, f.hasAudio = true := by
  have key : ∀ (l : List MediaFile) (b : Bool),
      l.foldl (fun acc f => acc && f.hasAudio) b = (b && l.all (fun f => f.hasAudio)) := by
    intro l
    induction l with
    | nil => intro b; simp
    | cons hd tl ih => intro b; simp [List.foldl_cons, ih, Bool.and_assoc]
  unfold allVideosHaveAudio
  rw [key]
  simp [List.all_eq_true]

/-- A size-exceeding download scenario makes `downloadVideo` reject. -/
theorem downloadVideo_error_of_sizeExceeded (maxFileSize : ℕ) (s : FetchScenario)
    (h : sizeExceeded maxFileSize s) : ∃ e, downloadVideo maxFileSize s = .error e := by
  rcases h with ⟨c, hc, hlt⟩ | hcap
  · exact ⟨"File too large", by simp [downloadVideo, hc, hlt]⟩
  · cases hcl : s.contentLength with
    | none => exact ⟨"Download exceeded limit", by simp [downloadVideo, hcl, hcap]⟩
    | some c =>
        by_cases hlt : maxFileSize < c
        · exact ⟨"File too large", by simp [downloadVideo, hcl, hlt]⟩
        · exact ⟨"Download exceeded limit", by simp [downloadVideo, hcl, hlt, hcap]⟩

/-- If any clip in the list fails to download, the sequential download
loop fails. -/
theorem downloadAll_error_of_mem (maxFileSize : ℕ) (s : FetchScenario) :
    ∀ (clips : List FetchScenario), s ∈ clips →
      (∃ e, downloadVideo maxFileSize s = .error e) →
      ∃ e, downloadAll maxFileSize clips = .error e := by
  intro clips hmem herr
  induction clips with
  | nil => cases hmem
  | cons hd tl ih =>
      rcases List.mem_cons.mp hmem with rfl | htl
      · obtain ⟨e, he⟩ := herr
        exact ⟨e, by simp [downloadAll, he]⟩
      · cases hdv : downloadVideo maxFileSize hd with
        | error e => exact ⟨e, by simp [downloadAll, hdv]⟩
        | ok u =>
            obtain ⟨e, he⟩ := ih htl
            exact ⟨e, by simp [downloadAll, hdv, he]⟩

/-- Under the no-clamping hypothesis the composed-timeline total
duration of `buildXfadeCommand` equals the raw duration sum minus
`(n - 1) * t`. -/
theorem xfadeTotal_closed (files : List MediaFile) (t : ℚ) (hn : 2 ≤ files.length)
    (ht : 0 ≤ t) (hmin : ∀ f ∈ files, t ≤ f.duration) :
    xfadeTotalDuration files t
      = (files.map (fun f => f.duration)).sum - ((files.length : ℚ) - 1) * t := by
  have hds : ∀ d ∈ files.map (fun f => f.duration), t ≤ d := by
    intro d hd
    obtain ⟨f, hf, rfl⟩ := List.mem_map.mp hd
    exact hmin f hf
  have hcsL : ∀ d ∈ (files.map (fun f => f.duration)).dropLast, t ≤ d :=
    fun d hd => hds d ((List.dropLast_sublist _).subset hd)
  unfold xfadeTotalDuration
  rw [videoOffsets]
  set ds := files.map (fun f => f.duration) with hds_def
  have hdslen : ds.length = files.length := by simp [hds_def]
  have hne : ds ≠ [] := by
    intro hnil
    rw [hnil] at hdslen
    simp at hdslen
    omega
  have hmlen : ds.dropLast.length = files.length - 1 := by
    simp [List.length_dropLast, hdslen]
  have hk : files.length - 1 = (files.length - 2) + 1 := by omega
  rw [hk, List.getD_cons_succ]
  rw [offsetsAux_closed t _ hcsL 0 0 (by simp)]
  have hlt : files.length - 2 < ds.dropLast.length := by omega
  simp only [Nat.cast_zero, zero_add]
  have hmap : ((List.range ds.dropLast.length).map
        (fun j => (ds.dropLast.take (j + 1)).sum - t * ((j : ℚ) + 1))).getD
        (files.length - 2) 0
      = (ds.dropLast.take ((files.length - 2) + 1)).sum
          - t * (((files.length - 2 : ℕ) : ℚ) + 1) := by
    rw [List.getD_eq_getElem _ _ (by simpa using hlt)]
    simp [List.getElem_map, List.getElem_range]
  rw [hmap]
  have htk : ds.dropLast.take ((files.length - 2) + 1) = ds.dropLast := by
    rw [← hk, ← hmlen, List.take_length]
  rw [htk]
  have hgetD : ds.getD (files.length - 1) 0 = ds.getLast hne := by
    rw [List.getD_eq_getElem _ _ (by omega)]
    rw [List.getLast_eq_getElem ds hne]
    congr 1
    omega
  rw [← hk, hgetD]
  have hsum : ds.sum = ds.dropLast.sum + ds.getLast hne := by
    conv_lhs => rw [← List.dropLast_append_getLast hne]
    simp
  rw [hsum]
  have hcast : ((files.length - 2 : ℕ) : ℚ) = (files.length : ℚ) - 2 := by
    rw [Nat.cast_sub (by omega)]
    norm_num
  rw [hcast]
  ring


/-! ## Claim theorems -/

/-- C1 (code bug): the spec requires that a failure to deliver the
webhook callback does not change the stored job state, and in
particular that a successful job with an unreachable `callbackUrl`
still reads as completed.  The source stores the completed record but
then awaits the callback post with no surrounding try/catch, so the
delivery failure lands in the outer catch block, which overwrites the
record: at the failing input the final stored status is `failed`, not
`completed`.  The failure path behaves as specified (its callback
attempt is guarded, so the stored failed record survives). -/
theorem C1_callback_failure_overwrites_completed :
    (processAsyncFinal (.ok ⟨"assembled-1.mp4", 22⟩)
        (some "http://unreachable.example") false).status = JobStatus.failed
    ∧ processAsyncFinal (.ok ⟨"assembled-1.mp4", 22⟩)
        (some "http://unreachable.example") false
        ≠ completedRecord ⟨"assembled-1.mp4", 22⟩
    ∧ processAsyncFinal (.error "boom") (some "http://unreachable.example") false
        = failedRecord "boom" := by
  refine ⟨rfl, ?_, rfl⟩
  simp [processAsyncFinal, failedRecord, completedRecord]

/-- C2 counterexample: with durations `[1, 10, 10]` and transition
duration 2 the code offsets are `[0, 0, 7]` while the spec section 4.2
reference algorithm yields `[0, 0, 8]`: the two clamping schemes
diverge, so the claimed unconditional equality is false. -/
theorem C2_counterexample :
    videoOffsets [⟨1, true⟩, ⟨10, true⟩, ⟨10, true⟩] 2
      ≠ specOffsets (([⟨1, true⟩, ⟨10, true⟩, ⟨10, true⟩] : List MediaFile).map
          (fun f => f.duration)) 2 := by
  simp [videoOffsets, offsetsAux, specOffsets, specOffsetsAux]
  norm_num

/-- C2 (amended): the crossfade offsets embedded in the command built
by `buildXfadeCommand` equal the offsets of the spec section 4.2
reference algorithm whenever the transition duration is nonnegative
and at most every clip duration (so that neither clamp fires); with a
transition duration exceeding some clip duration the two computations
can diverge. -/
theorem C2_offsets_refine_spec (files : List MediaFile) (t : ℚ)
    (hn : 2 ≤ files.length) (ht : 0 ≤ t) (hmin : ∀ f ∈ files, t ≤ f.duration) :
    videoOffsets files t = specOffsets (files.map (fun f => f.duration)) t := by
  have hds : ∀ d ∈ files.map (fun f => f.duration), t ≤ d := by
    intro d hd
    obtain ⟨f, hf, rfl⟩ := List.mem_map.mp hd
    exact hmin f hf
  have hlen : 2 ≤ (files.map (fun f => f.duration)).length := by simpa using hn
  exact offsets_lists_eq t _ hlen hds

/-- C2 witness: the amended equality at three clips of durations 2, 3,
4 with transition duration 1. -/
theorem C2_witness :
    videoOffsets [⟨2, true⟩, ⟨3, true⟩, ⟨4, true⟩] 1
      = specOffsets (([⟨2, true⟩, ⟨3, true⟩, ⟨4, true⟩] : List MediaFile).map
          (fun f => f.duration)) 1 :=
  C2_offsets_refine_spec [⟨2, true⟩, ⟨3, true⟩, ⟨4, true⟩] 1 (by simp) (by norm_num)
    (by intro f hf; fin_cases hf <;> norm_num)

/-- C3 counterexample: for durations `[5, 1/2, 1]` with transition
duration 1 the computed offsets `[0, 4, 7/2]` are NOT non-decreasing,
and for durations `[1, 1]` with transition duration 3 the value
returned by `calculateTotalDuration` is negative: the source performs
no clamping. -/
theorem C3_counterexample :
    ¬ List.Chain' (fun a b => a ≤ b)
        (videoOffsets [⟨5, true⟩, ⟨1/2, true⟩, ⟨1, true⟩] 1)
    ∧ calculateTotalDuration [⟨1, true⟩, ⟨1, true⟩] 3 < 0 := by
  constructor
  · simp [videoOffsets, offsetsAux]
    norm_num
  · simp [calculateTotalDuration, round2, jsRound]
    norm_num

/-- C3 (amended): for every clip count at least 2 and every transition
duration `t` with `0 ≤ t` and `t` at most each clip duration, the
offsets computed by `buildXfadeCommand` are non-decreasing,
`offset[0] = 0`, `offset[i]` is at most the sum of the first `i` clip
durations, `calculateTotalDuration` returns the sum of durations minus
`(n - 1) * t` rounded to two decimal places half-up, and that value is
nonnegative (no clamping is needed under this hypothesis; the source
itself never clamps). -/
theorem C3_timeline_invariants (files : List MediaFile) (t : ℚ)
    (hn : 2 ≤ files.length) (ht : 0 ≤ t)
    (hmin : ∀ f ∈ files, t ≤ f.duration) :
    List.Chain' (fun a b => a ≤ b) (videoOffsets files t)
    ∧ (videoOffsets files t).getD 0 0 = 0
    ∧ (∀ i : ℕ, (videoOffsets files t).getD i 0
        ≤ ((files.map (fun f => f.duration)).take i).sum)
    ∧ calculateTotalDuration files t
        = round2 ((files.map (fun f => f.duration)).sum - ((files.length : ℚ) - 1) * t)
    ∧ 0 ≤ calculateTotalDuration files t := by
  have hds : ∀ d ∈ files.map (fun f => f.duration), t ≤ d := by
    intro d hd
    obtain ⟨f, hf, rfl⟩ := List.mem_map.mp hd
    exact hmin f hf
  have hds0 : ∀ d ∈ files.map (fun f => f.duration), 0 ≤ d :=
    fun d hd => le_trans ht (hds d hd)
  have hcsL : ∀ d ∈ (files.map (fun f => f.duration)).dropLast, t ≤ d :=
    fun d hd => hds d ((List.dropLast_sublist _).subset hd)
  have hcsL0 : ∀ d ∈ (files.map (fun f => f.duration)).dropLast, 0 ≤ d :=
    fun d hd => le_trans ht (hcsL d hd)
  refine ⟨?_, ?_, ?_, rfl, ?_⟩
  · exact offsetsAux_chain t _ hcsL 0 0 0 (by simp) (by simp)
  · simp [videoOffsets]
  · intro i
    cases i with
    | zero => simp [videoOffsets]
    | succ j =>
        have hb := offsetsAux_getD_le t ht _ hcsL0 0 0 (le_refl 0) j
        have hv : (videoOffsets files t).getD (j + 1) 0
            = (offsetsAux t (files.map (fun f => f.duration)).dropLast 0 0).getD j 0 := by
          simp [videoOffsets]
        rw [hv]
        have htake : ((files.map (fun f => f.duration)).dropLast.take (j + 1)).sum
            ≤ ((files.map (fun f => f.duration)).take (j + 1)).sum := by
          rw [List.dropLast_eq_take, List.take_take]
          exact sum_take_mono _ hds0 _ _ (Nat.min_le_left _ _)
        linarith
  · have hsum := length_mul_le_sum t _ hds
    have hlen : ((files.map (fun f => f.duration)).length : ℚ) = (files.length : ℚ) := by
      simp
    apply round2_nonneg
    rw [hlen] at hsum
    have hstep : ((files.length : ℚ) - 1) * t ≤ (files.length : ℚ) * t :=
      mul_le_mul_of_nonneg_right (by linarith) ht
    linarith

/-- C3 witness: the amended invariants at three clips of durations 2,
3, 4 with transition duration 1. -/
theorem C3_witness :
    List.Chain' (fun a b => a ≤ b) (videoOffsets [⟨2, true⟩, ⟨3, true⟩, ⟨4, true⟩] 1)
    ∧ 0 ≤ calculateTotalDuration [⟨2, true⟩, ⟨3, true⟩, ⟨4, true⟩] 1 := by
  have h := C3_timeline_invariants [⟨2, true⟩, ⟨3, true⟩, ⟨4, true⟩] 1 (by simp)
    (by norm_num) (by intro f hf; fin_cases hf <;> norm_num)
  exact ⟨h.1, h.2.2.2.2⟩

/-- C4 counterexample: for two clips of duration 1 with transition
duration 2 the reported duration is 0 while the composed timeline used
in the emitted graph (offset clamping included) totals 1, so the
claimed unconditional 0.1 s agreement is false. -/
theorem C4_counterexample :
    ¬ |calculateTotalDuration [⟨1, true⟩, ⟨1, true⟩] 2
        - xfadeTotalDuration [⟨1, true⟩, ⟨1, true⟩] 2| ≤ 1/10 := by
  simp [calculateTotalDuration, xfadeTotalDuration, videoOffsets, offsetsAux,
    round2, jsRound]
  norm_num

/-- C4 (amended): when the transition duration is nonnegative and at
most every clip duration, the duration reported by
`calculateTotalDuration` agrees with the total duration of the
composed timeline of the emitted graph (last offset plus last clip
duration, the `apad whole_dur` value of every audio chain) within the
0.1 s tolerance (in fact within 1/200, the two-decimal rounding
error); without that hypothesis the clamped offsets can make the two
diverge by more than the tolerance. -/
theorem C4_duration_roundtrip (files : List MediaFile) (t : ℚ) (w h : ℕ)
    (hn : 2 ≤ files.length) (ht : 0 ≤ t)
    (hmin : ∀ f ∈ files, t ≤ f.duration) :
    |calculateTotalDuration files t - xfadeTotalDuration files t| ≤ 1/10
    ∧ (∀ cmd, buildXfadeCommand files t w h true = .ok cmd →
        cmd.totalDuration = xfadeTotalDuration files t
        ∧ ∀ a ∈ cmd.audio.getD [], a.padWholeDur = xfadeTotalDuration files t) := by
  constructor
  · rw [xfadeTotal_closed files t hn ht hmin]
    have hcalc : calculateTotalDuration files t
        = round2 ((files.map (fun f => f.duration)).sum
            - ((files.length : ℚ) - 1) * t) := rfl
    rw [hcalc]
    exact le_trans (abs_round2_sub_le _) (by norm_num)
  · intro cmd hcmd
    have hlt : ¬ files.length < 2 := Nat.not_lt.mpr hn
    rw [buildXfadeCommand, if_neg hlt] at hcmd
    cases hcmd
    refine ⟨rfl, ?_⟩
    intro a ha
    simp only [Option.getD_some] at ha
    obtain ⟨i, hi, rfl⟩ := List.mem_map.mp ha
    rfl

/-- C4 witness: the amended round-trip at two clips of durations 4 and
5 with transition duration 1. -/
theorem C4_witness :
    |calculateTotalDuration [⟨4, true⟩, ⟨5, true⟩] 1
      - xfadeTotalDuration [⟨4, true⟩, ⟨5, true⟩] 1| ≤ 1/10 :=
  (C4_duration_roundtrip [⟨4, true⟩, ⟨5, true⟩] 1 1920 1080 (by simp) (by norm_num)
    (by intro f hf; fin_cases hf <;> norm_num)).1

/-- C5: the emitted command carries the audio filter and mix chain
exactly when the audio flag accumulated over the downloaded clips is
set, i.e. when every clip has an audio stream; and the video portion
of the command (clip count, canvas, scale/pad nodes, xfade chain and
offsets) is identical whether audio is included or not. -/
theorem C5_audio_gating (files : List MediaFile) (t : ℚ) (w h : ℕ)
    (hn : 2 ≤ files.length) :
    (∀ cmd, buildXfadeCommand files t w h (allVideosHaveAudio files) = .ok cmd →
        (cmd.audio.isSome ↔ ∀ f ∈ files, f.hasAudio = true))
    ∧ Except.map XfadeCommand.video (buildXfadeCommand files t w h true)
        = Except.map XfadeCommand.video (buildXfadeCommand files t w h false) := by
  have hlt : ¬ files.length < 2 := Nat.not_lt.mpr hn
  constructor
  · intro cmd hcmd
    rw [buildXfadeCommand, if_neg hlt] at hcmd
    cases hcmd
    rw [← allVideosHaveAudio_iff]
    cases hall : allVideosHaveAudio files <;> simp [hall]
  · simp only [buildXfadeCommand, if_neg hlt, Except.map]

/-- C5 witness: the gating at two clips where the second one lacks
audio. -/
theorem C5_witness :
    2 ≤ ([⟨8, true⟩, ⟨8, false⟩] : List MediaFile).length
    ∧ ((∀ cmd, buildXfadeCommand [⟨8, true⟩, ⟨8, false⟩] 1 1920 1080
          (allVideosHaveAudio [⟨8, true⟩, ⟨8, false⟩]) = .ok cmd →
          (cmd.audio.isSome ↔
            ∀ f ∈ ([⟨8, true⟩, ⟨8, false⟩] : List MediaFile), f.hasAudio = true))
      ∧ Except.map XfadeCommand.video
            (buildXfadeCommand [⟨8, true⟩, ⟨8, false⟩] 1 1920 1080 true)
          = Except.map XfadeCommand.video
            (buildXfadeCommand [⟨8, true⟩, ⟨8, false⟩] 1 1920 1080 false)) :=
  ⟨by simp, C5_audio_gating [⟨8, true⟩, ⟨8, false⟩] 1 1920 1080 (by simp)⟩

/-- C6: for three clips of 8 seconds each with transition duration 1,
the emitted command contains exactly two crossfade nodes, at offsets 7
and 14, and `calculateTotalDuration` returns 22. -/
theorem C6_scenarioA :
    Except.map (fun c => c.video.xfade.map XfadeStep.offset)
      (buildXfadeCommand [⟨8, true⟩, ⟨8, true⟩, ⟨8, true⟩] 1 1920 1080 true)
        = .ok [7, 14]
    ∧ Except.map (fun c => c.video.xfade.length)
      (buildXfadeCommand [⟨8, true⟩, ⟨8, true⟩, ⟨8, true⟩] 1 1920 1080 true)
        = .ok 2
    ∧ calculateTotalDuration [⟨8, true⟩, ⟨8, true⟩, ⟨8, true⟩] 1 = 22 := by
  refine ⟨?_, ?_, ?_⟩ <;>
    simp [buildXfadeCommand, videoOffsets, offsetsAux, xfadeTotalDuration,
      calculateTotalDuration, round2, jsRound, List.range_succ, Except.map] <;>
    norm_num

/-- C7: a clip download whose size exceeds the configured byte cap
(whether signalled by the `content-length` header or detected by the
streamed-byte counter) makes `downloadVideo` reject with an error, the
assembly fail without the transcoder ever being invoked, and the
working directory holding the partial file be removed. -/
theorem C7_download_size_cap (maxFileSize : ℕ) (clips : List FetchScenario) (t : ℚ)
    (w h : ℕ) (transcodeOk : Bool) (s : FetchScenario) (hmem : s ∈ clips)
    (hex : sizeExceeded maxFileSize s) :
    (∃ e, downloadVideo maxFileSize s = .error e)
    ∧ (assembleVideos maxFileSize clips t w h transcodeOk).ffmpegInvoked = false
    ∧ (∃ e, (assembleVideos maxFileSize clips t w h transcodeOk).result = .error e)
    ∧ (assembleVideos maxFileSize clips t w h transcodeOk).workDirRemoved = true := by
  have hdl := downloadVideo_error_of_sizeExceeded maxFileSize s hex
  obtain ⟨e, he⟩ := downloadAll_error_of_mem maxFileSize s clips hmem hdl
  refine ⟨hdl, ?_, ⟨e, ?_⟩, ?_⟩ <;> simp [assembleVideos, he]

/-- C7 witness: a first clip announcing 501 bytes against a 500-byte
cap aborts the assembly before transcoding. -/
theorem C7_witness :
    (FetchScenario.mk (some 501) [] ⟨8, true⟩) ∈
        [FetchScenario.mk (some 501) [] ⟨8, true⟩, FetchScenario.mk none [100] ⟨8, true⟩]
    ∧ sizeExceeded 500 (FetchScenario.mk (some 501) [] ⟨8, true⟩)
    ∧ (∃ e, downloadVideo 500 (FetchScenario.mk (some 501) [] ⟨8, true⟩) = .error e)
    ∧ (assembleVideos 500
        [FetchScenario.mk (some 501) [] ⟨8, true⟩, FetchScenario.mk none [100] ⟨8, true⟩]
        1 1920 1080 true).ffmpegInvoked = false := by
  have hmem : (FetchScenario.mk (some 501) [] ⟨8, true⟩) ∈
      [FetchScenario.mk (some 501) [] ⟨8, true⟩, FetchScenario.mk none [100] ⟨8, true⟩] :=
    List.mem_cons_self _ _
  have hex : sizeExceeded 500 (FetchScenario.mk (some 501) [] ⟨8, true⟩) :=
    Or.inl ⟨501, rfl, by norm_num⟩
  have h := C7_download_size_cap 500
    [FetchScenario.mk (some 501) [] ⟨8, true⟩, FetchScenario.mk none [100] ⟨8, true⟩]
    1 1920 1080 true (FetchScenario.mk (some 501) [] ⟨8, true⟩) hmem hex
  exact ⟨hmem, hex, h.1, h.2.1⟩

/-- C8 counterexample: with two clips of duration 1/1000 each and
transition duration 0, `calculateTotalDuration` returns 0, not the sum
1/500 of the clip durations: the two-decimal rounding destroys the
claimed exact equality. -/
theorem C8_counterexample :
    calculateTotalDuration [⟨1/1000, true⟩, ⟨1/1000, true⟩] 0
      ≠ (([⟨1/1000, true⟩, ⟨1/1000, true⟩] : List MediaFile).map
          (fun f => f.duration)).sum := by
  simp [calculateTotalDuration, round2, jsRound]
  norm_num

/-- C8 (amended): for at least 2 clips of nonnegative durations and
transition duration 0, the offsets computed by `buildXfadeCommand` are
exactly the cumulative sums of the preceding clip durations
(back-to-back concatenation), and `calculateTotalDuration` returns the
sum of all clip durations rounded to two decimal places half-up (equal
to the exact sum only when that sum is a multiple of 1/100). -/
theorem C8_zero_transition_concat (files : List MediaFile)
    (hn : 2 ≤ files.length) (hpos : ∀ f ∈ files, 0 ≤ f.duration) :
    videoOffsets files 0
      = (List.range files.length).map
          (fun i => ((files.map (fun f => f.duration)).take i).sum)
    ∧ calculateTotalDuration files 0
        = round2 ((files.map (fun f => f.duration)).sum) := by
  have hds0 : ∀ d ∈ files.map (fun f => f.duration), (0 : ℚ) ≤ d := by
    intro d hd
    obtain ⟨f, hf, rfl⟩ := List.mem_map.mp hd
    exact hpos f hf
  have hcsL0 : ∀ d ∈ (files.map (fun f => f.duration)).dropLast, (0 : ℚ) ≤ d :=
    fun d hd => hds0 d ((List.dropLast_sublist _).subset hd)
  constructor
  · rw [videoOffsets, offsetsAux_closed 0 _ hcsL0 0 0 (by simp)]
    have hmlen : (files.map (fun f => f.duration)).dropLast.length
        = files.length - 1 := by
      simp [List.length_dropLast]
    rw [hmlen]
    have hn1 : files.length = (files.length - 1) + 1 := by omega
    conv_rhs => rw [hn1, List.range_succ_eq_map, List.map_cons, List.map_map]
    congr 1
    apply List.map_congr_left
    intro j hj
    have hj' : j < files.length - 1 := List.mem_range.mp hj
    have htake : (files.map (fun f => f.duration)).dropLast.take (j + 1)
        = (files.map (fun f => f.duration)).take (j + 1) := by
      rw [List.dropLast_eq_take, List.take_take]
      congr 1
      have hlen : (files.map (fun f => f.duration)).length = files.length := by simp
      rw [hlen]
      omega
    simp [Function.comp, htake]
  · have hzero : calculateTotalDuration files 0
        = round2 ((files.map (fun f => f.duration)).sum
            - ((files.length : ℚ) - 1) * 0) := rfl
    rw [hzero]
    norm_num

/-- C8 witness: the amended statement at two clips of durations 1 and
2 with transition duration 0. -/
theorem C8_witness :
    videoOffsets [⟨1, true⟩, ⟨2, true⟩] 0
      = (List.range ([⟨1, true⟩, ⟨2, true⟩] : List MediaFile).length).map
          (fun i => ((([⟨1, true⟩, ⟨2, true⟩] : List MediaFile).map
            (fun f => f.duration)).take i).sum)
    ∧ calculateTotalDuration [⟨1, true⟩, ⟨2, true⟩] 0
        = round2 ((([⟨1, true⟩, ⟨2, true⟩] : List MediaFile).map
            (fun f => f.duration)).sum) :=
  C8_zero_transition_concat [⟨1, true⟩, ⟨2, true⟩] (by simp)
    (by intro f hf; fin_cases hf <;> norm_num)

/-- C9: at the `/api/assemble` endpoint a falsy caller-supplied
transition duration (absent transition object, absent duration field,
or an explicit 0) is replaced by the default 1 before the pipeline
runs, so a request asking for a zero-length transition is processed
with 1-second crossfades rather than the plain concatenation that a
genuine `t = 0` run would produce. -/
theorem C9_zero_duration_replaced_by_default :
    resolveTransitionDuration (some (some 0)) = 1
    ∧ resolveTransitionDuration (some none) = 1
    ∧ resolveTransitionDuration none = 1
    ∧ videoOffsets [⟨8, true⟩, ⟨8, true⟩] (resolveTransitionDuration (some (some 0)))
        ≠ videoOffsets [⟨8, true⟩, ⟨8, true⟩] 0 := by
  refine ⟨rfl, rfl, rfl, ?_⟩
  simp [resolveTransitionDuration, videoOffsets, offsetsAux]

/-- C10: the periodic sweep removes every registry entry whose
reference timestamp (completedAt, else failedAt, else createdAt) is
strictly older than one hour, regardless of status, and the job status
endpoint then answers 404 for that id. -/
theorem C10_sweep_removes_stale_jobs (reg : Registry) (now : ℤ) (id : String)
    (j : SweepJob) (hj : reg id = some j) (hold : jobRefTime j < now - 3600000) :
    getJobEndpoint (sweepJobs reg now) id = .notFound404 := by
  simp [getJobEndpoint, sweepJobs, hj, hold]

/-- C10 witness: a job still in `processing` (only `createdAt` set,
at time 0) is swept at time 3600000 + 1 ms and the endpoint returns
404 even though the job never reached a terminal state. -/
theorem C10_witness :
    (fun id => if id = "j1" then some (SweepJob.mk .processing 0 none none) else none)
        "j1" = some (SweepJob.mk .processing 0 none none)
    ∧ jobRefTime (SweepJob.mk .processing 0 none none) < 3600001 - 3600000
    ∧ getJobEndpoint
        (sweepJobs
          (fun id => if id = "j1" then some (SweepJob.mk .processing 0 none none) else none)
          3600001)
        "j1" = .notFound404 := by
  refine ⟨rfl, by norm_num [jobRefTime], ?_⟩
  exact C10_sweep_removes_stale_jobs _ 3600001 "j1" (SweepJob.mk .processing 0 none none)
    rfl (by norm_num [jobRefTime])

end FfmpegApi
